import Mathlib

/-!
Verification development for the `Gadget` repository's audio transcription
pipeline (`audio_to_text/transcribe_audio.py`).

The pipeline turns an audio file into a speaker-attributed transcript:
it normalizes audio to WAV, diarizes speaker turns, transcribes each turn
(splitting any oversized unit into byte-budgeted chunks), and assembles a
final transcript written to `<stem>.diarized.txt`.

The shallow embedding below follows the source code.  External effects are
embedded as oracle parameters:

* `oracle : Dispatch → Option ChunkResult` stands for the Whisper API call
  `_transcribir_chunk_whisper` (line 204): it receives either the whole WAV
  file or an exported slice `[start_ms, end_ms)` of it and either returns a
  result or fails.
* `export_ok : ℕ × ℕ → Bool` stands for the `chunk_audio.export` call
  (line 165): `false` means the chunk WAV could not be materialized, in
  which case the source `continue`s without dispatching that chunk.

Python dictionary accesses with defaults (`chunk_result.get('text', '')`,
`seg.get('start', 0)`, `'segments' in chunk_result`) are embedded as total
structure fields; a missing key is represented by the corresponding default
value.  Python `float` second values are embedded as the exact rational
numbers they denote, and byte sizes / millisecond durations as naturals.
-/

/-- One Whisper segment, source keys `'start'`, `'end'`, `'text'`
(the `end` key is called `stop` here because `end` is a Lean keyword). -/
structure Segment where
  start : ℚ
  stop : ℚ
  text : String
  deriving DecidableEq

/-- The verbose-json transcription result used by the source: keys
`'text'`, `'segments'`, `'language'`. -/
structure ChunkResult where
  text : String
  segments : List Segment
  language : String
  deriving DecidableEq

/-- A single call to the transcription primitive: either the whole WAV file
(direct path, line 124) or an exported slice (chunked path, line 170). -/
inductive Dispatch where
  | whole : Dispatch
  | slice (start_ms end_ms : ℕ) : Dispatch
  deriving DecidableEq

/-- Source line 28: `WHISPER_API_LIMIT_BYTES = 24 * 1024 * 1024`. -/
def WHISPER_API_LIMIT_BYTES : ℕ := 24 * 1024 * 1024

/-- Source lines 136-138: `num_chunks = 1`, overwritten with
`math.ceil(file_size / WHISPER_API_LIMIT_BYTES)` when the size exceeds the
limit (`(a + b - 1) / b` is the ceiling of `a / b` on naturals). -/
def num_chunksVal (file_size : ℕ) : ℕ :=
  if WHISPER_API_LIMIT_BYTES < file_size then
    (file_size + WHISPER_API_LIMIT_BYTES - 1) / WHISPER_API_LIMIT_BYTES
  else 1

/-- Source lines 140-143: `chunk_duration_ms = math.floor(total_duration_ms
/ num_chunks)`, rescued to `total_duration_ms` when it is `0` and
`num_chunks == 1`. -/
def chunk_durationVal (file_size total_duration_ms : ℕ) : ℕ :=
  let d0 := total_duration_ms / num_chunksVal file_size
  if d0 = 0 ∧ num_chunksVal file_size = 1 then total_duration_ms else d0

/-- Source lines 156-157: the `i`-th chunk interval
`[i * chunk_duration_ms, (i+1) * chunk_duration_ms)`, the last interval
ending at `total_duration_ms` instead. -/
def interval (total_duration_ms num_chunks chunk_duration_ms i : ℕ) : ℕ × ℕ :=
  (i * chunk_duration_ms,
   if i < num_chunks - 1 then (i + 1) * chunk_duration_ms else total_duration_ms)

/-- The chunk intervals actually processed by the loop at lines 155-160:
an interval with `start_ms >= end_ms` is skipped (`continue`). -/
def chunkIntervals (total_duration_ms num_chunks chunk_duration_ms : ℕ) :
    List (ℕ × ℕ) :=
  (List.range num_chunks).filterMap (fun i =>
    let p := interval total_duration_ms num_chunks chunk_duration_ms i
    if p.2 ≤ p.1 then none else some p)

/-- The loop accumulator of lines 151-153 plus the trace of API dispatches
made so far. -/
structure LoopState where
  all_text : String
  all_segments : List Segment
  last_successful_lang : String
  dispatches : List Dispatch
  deriving DecidableEq

/-- Source lines 178-180: `adjusted_seg = seg.copy()` followed by
`adjusted_seg['start'] = chunk_start_time_s + seg.get('start', 0)` and
likewise for `'end'`; all other keys (here `text`) are kept. -/
def shiftSeg (off : ℚ) (seg : Segment) : Segment :=
  { seg with start := off + seg.start, stop := off + seg.stop }

/-- One iteration of the chunk loop, lines 155-188: skip empty intervals,
skip chunks whose export fails, otherwise dispatch the slice and on success
append its text plus `" "`, re-base and append its segments
(`chunk_start_time_s = start_ms / 1000.0`), and remember its language. -/
def chunkStep (total_duration_ms num_chunks chunk_duration_ms : ℕ)
    (export_ok : ℕ × ℕ → Bool) (oracle : Dispatch → Option ChunkResult)
    (st : LoopState) (i : ℕ) : LoopState :=
  let p := interval total_duration_ms num_chunks chunk_duration_ms i
  if p.2 ≤ p.1 then st
  else if export_ok p = false then st
  else
    match oracle (Dispatch.slice p.1 p.2) with
    | none => { st with dispatches := st.dispatches ++ [Dispatch.slice p.1 p.2] }
    | some r =>
      { all_text := st.all_text ++ r.text ++ " "
        all_segments := st.all_segments ++
          r.segments.map (shiftSeg ((p.1 : ℚ) / 1000))
        last_successful_lang := r.language
        dispatches := st.dispatches ++ [Dispatch.slice p.1 p.2] }

/-- Characters stripped by Python `str.strip()`: exactly the code points
for which CPython `str.isspace()` holds (ASCII whitespace, the file/group/
record/unit separators, NEL, NBSP, and the Unicode space and line/paragraph
separators). -/
def isPySpace (c : Char) : Bool :=
  c == ' ' || c == '\t' || c == '\n' || c == '\r' || c == '\x0b' || c == '\x0c' ||
  c == '\x1c' || c == '\x1d' || c == '\x1e' || c == '\x1f' || c == '\x85' ||
  c == '\xa0' || c == '\u1680' || c == '\u2000' || c == '\u2001' || c == '\u2002' ||
  c == '\u2003' || c == '\u2004' || c == '\u2005' || c == '\u2006' || c == '\u2007' ||
  c == '\u2008' || c == '\u2009' || c == '\u200A' || c == '\u2028' || c == '\u2029' ||
  c == '\u202F' || c == '\u205F' || c == '\u3000'

/-- `str.strip()` on the underlying character list. -/
def stripChars (l : List Char) : List Char :=
  ((l.dropWhile isPySpace).reverse.dropWhile isPySpace).reverse

/-- Python `all_text.strip()` (line 195). -/
def pyStrip (s : String) : String := String.mk (stripChars s.data)

/-- Embedding of `_transcribir_wav_con_chunking_opcional` (lines 101-200).
Returns the transcription result together with the list of dispatches made
to the transcription primitive.  Direct path (lines 122-124); otherwise the
chunking path: compute `num_chunks` and `chunk_duration_ms`, fail when the
chunk duration is non-positive (line 145-147), run the chunk loop, fail
when `all_text` stayed empty (lines 190-192), and otherwise return the
combined result (lines 194-198) with the accumulated text stripped. -/
def transcribir_wav_con_chunking_opcional (file_size total_duration_ms : ℕ)
    (export_ok : ℕ × ℕ → Bool) (oracle : Dispatch → Option ChunkResult)
    (forzar_chunking : Bool) : Option ChunkResult × List Dispatch :=
  if forzar_chunking = false ∧ file_size ≤ WHISPER_API_LIMIT_BYTES then
    (oracle Dispatch.whole, [Dispatch.whole])
  else
    let n := num_chunksVal file_size
    let d := chunk_durationVal file_size total_duration_ms
    if d = 0 then (none, [])
    else
      let st := (List.range n).foldl
        (chunkStep total_duration_ms n d export_ok oracle) ⟨"", [], "unknown", []⟩
      if st.all_text = "" then (none, st.dispatches)
      else
        (some ⟨pyStrip st.all_text, st.all_segments, st.last_successful_lang⟩,
         st.dispatches)

/-- Whether chunk `i` is dispatched at all: its interval is non-empty and
its WAV export succeeded. -/
def attempted (total_duration_ms num_chunks chunk_duration_ms : ℕ)
    (export_ok : ℕ × ℕ → Bool) (i : ℕ) : Bool :=
  let p := interval total_duration_ms num_chunks chunk_duration_ms i
  decide (p.1 < p.2) && export_ok p

/-- The outcome chunk `i` contributes to the accumulator: `some r` exactly
when the chunk was dispatched and the primitive returned `r`. -/
def contrib (total_duration_ms num_chunks chunk_duration_ms : ℕ)
    (export_ok : ℕ × ℕ → Bool) (oracle : Dispatch → Option ChunkResult)
    (i : ℕ) : Option ChunkResult :=
  if attempted total_duration_ms num_chunks chunk_duration_ms export_ok i then
    oracle (Dispatch.slice
      (interval total_duration_ms num_chunks chunk_duration_ms i).1
      (interval total_duration_ms num_chunks chunk_duration_ms i).2)
  else none

/-- Concatenation of a list of strings (no separator). -/
def concatStr (L : List String) : String := L.foldr (· ++ ·) ""

/-- The texts of the chunks whose dispatch succeeded, in chunk order. -/
def successTexts (total_duration_ms num_chunks chunk_duration_ms : ℕ)
    (export_ok : ℕ × ℕ → Bool) (oracle : Dispatch → Option ChunkResult)
    (l : List ℕ) : List String :=
  l.filterMap (fun i =>
    (contrib total_duration_ms num_chunks chunk_duration_ms export_ok oracle i).map
      ChunkResult.text)

/-- What the loop accumulates in `all_text` over the chunk indices `l`:
each successful chunk's text followed by a space. -/
def textsOf (total_duration_ms num_chunks chunk_duration_ms : ℕ)
    (export_ok : ℕ × ℕ → Bool) (oracle : Dispatch → Option ChunkResult)
    (l : List ℕ) : String :=
  concatStr ((successTexts total_duration_ms num_chunks chunk_duration_ms
    export_ok oracle l).map (fun t => t ++ " "))

/-- Chunk `i`'s contribution to `all_text`. -/
def text1 (total_duration_ms num_chunks chunk_duration_ms : ℕ)
    (export_ok : ℕ × ℕ → Bool) (oracle : Dispatch → Option ChunkResult)
    (i : ℕ) : String :=
  match contrib total_duration_ms num_chunks chunk_duration_ms export_ok oracle i with
  | some r => r.text ++ " "
  | none => ""

/-- Chunk `i`'s contribution to `all_segments`. -/
def segs1 (total_duration_ms num_chunks chunk_duration_ms : ℕ)
    (export_ok : ℕ × ℕ → Bool) (oracle : Dispatch → Option ChunkResult)
    (i : ℕ) : List Segment :=
  match contrib total_duration_ms num_chunks chunk_duration_ms export_ok oracle i with
  | some r => r.segments.map (shiftSeg
      (((interval total_duration_ms num_chunks chunk_duration_ms i).1 : ℚ) / 1000))
  | none => []

/-- Chunk `i`'s contribution to the dispatch trace. -/
def disp1 (total_duration_ms num_chunks chunk_duration_ms : ℕ)
    (export_ok : ℕ × ℕ → Bool) (i : ℕ) : List Dispatch :=
  if attempted total_duration_ms num_chunks chunk_duration_ms export_ok i then
    [Dispatch.slice
      (interval total_duration_ms num_chunks chunk_duration_ms i).1
      (interval total_duration_ms num_chunks chunk_duration_ms i).2]
  else []

/-- Chunk `i`'s update of the last successful language. -/
def lang1 (total_duration_ms num_chunks chunk_duration_ms : ℕ)
    (export_ok : ℕ × ℕ → Bool) (oracle : Dispatch → Option ChunkResult)
    (i : ℕ) (lang : String) : String :=
  match contrib total_duration_ms num_chunks chunk_duration_ms export_ok oracle i with
  | some r => r.language
  | none => lang

/-- What the loop accumulates in `all_segments` over the chunk indices `l`:
each successful chunk's segments re-based by its interval's start offset in
seconds. -/
def segsOf (total_duration_ms num_chunks chunk_duration_ms : ℕ)
    (export_ok : ℕ × ℕ → Bool) (oracle : Dispatch → Option ChunkResult)
    (l : List ℕ) : List Segment :=
  l.flatMap (fun i =>
    match contrib total_duration_ms num_chunks chunk_duration_ms export_ok oracle i with
    | some r => r.segments.map (shiftSeg
        (((interval total_duration_ms num_chunks chunk_duration_ms i).1 : ℚ) / 1000))
    | none => [])

/-- The dispatches the loop makes over the chunk indices `l`. -/
def dispOf (total_duration_ms num_chunks chunk_duration_ms : ℕ)
    (export_ok : ℕ × ℕ → Bool) (l : List ℕ) : List Dispatch :=
  l.filterMap (fun i =>
    if attempted total_duration_ms num_chunks chunk_duration_ms export_ok i then
      some (Dispatch.slice
        (interval total_duration_ms num_chunks chunk_duration_ms i).1
        (interval total_duration_ms num_chunks chunk_duration_ms i).2)
    else none)

/-- The language after folding the chunk indices `l`: the language of the
most recent successful chunk, else the incoming value (lines 153, 174). -/
def langOf (total_duration_ms num_chunks chunk_duration_ms : ℕ)
    (export_ok : ℕ × ℕ → Bool) (oracle : Dispatch → Option ChunkResult)
    (l : List ℕ) (lang : String) : String :=
  l.foldl (fun acc i =>
    match contrib total_duration_ms num_chunks chunk_duration_ms export_ok oracle i with
    | some r => r.language
    | none => acc) lang

theorem string_data_append (s t : String) : (s ++ t).data = s.data ++ t.data :=
  String.data_append s t

theorem string_eq_iff_data (s t : String) : s = t ↔ s.data = t.data :=
  ⟨fun h => h ▸ rfl, String.ext⟩

theorem string_append_empty (s : String) : s ++ "" = s := by
  rw [string_eq_iff_data, string_data_append]; simp [String.data]

theorem string_empty_append (s : String) : "" ++ s = s := by
  rw [string_eq_iff_data, string_data_append]; simp [String.data]

theorem string_append_assoc (s t u : String) : s ++ t ++ u = s ++ (t ++ u) := by
  rw [string_eq_iff_data]; simp only [string_data_append, List.append_assoc]

/-- One step of the chunk loop in terms of the per-index contribution
functions. -/
theorem chunkStep_eq (total_duration_ms num_chunks chunk_duration_ms : ℕ)
    (export_ok : ℕ × ℕ → Bool) (oracle : Dispatch → Option ChunkResult)
    (st : LoopState) (i : ℕ) :
    chunkStep total_duration_ms num_chunks chunk_duration_ms export_ok oracle st i =
      ⟨st.all_text ++ text1 total_duration_ms num_chunks chunk_duration_ms export_ok oracle i,
       st.all_segments ++ segs1 total_duration_ms num_chunks chunk_duration_ms export_ok oracle i,
       lang1 total_duration_ms num_chunks chunk_duration_ms export_ok oracle i
         st.last_successful_lang,
       st.dispatches ++ disp1 total_duration_ms num_chunks chunk_duration_ms export_ok i⟩ := by
  simp only [chunkStep, text1, segs1, disp1, lang1, contrib, attempted]
  by_cases h1 : (interval total_duration_ms num_chunks chunk_duration_ms i).2 ≤
      (interval total_duration_ms num_chunks chunk_duration_ms i).1
  · have h1' : ¬ (interval total_duration_ms num_chunks chunk_duration_ms i).1 <
        (interval total_duration_ms num_chunks chunk_duration_ms i).2 := Nat.not_lt.mpr h1
    simp [h1, h1', string_append_empty]
  · have h1' : (interval total_duration_ms num_chunks chunk_duration_ms i).1 <
        (interval total_duration_ms num_chunks chunk_duration_ms i).2 := Nat.lt_of_not_le h1
    by_cases hexp : export_ok (interval total_duration_ms num_chunks chunk_duration_ms i) = false
    · simp [h1, h1', hexp, string_append_empty]
    · have hexp' : export_ok (interval total_duration_ms num_chunks chunk_duration_ms i) = true := by
        revert hexp
        cases export_ok (interval total_duration_ms num_chunks chunk_duration_ms i) <;> simp
      rcases hor : oracle (Dispatch.slice
          (interval total_duration_ms num_chunks chunk_duration_ms i).1
          (interval total_duration_ms num_chunks chunk_duration_ms i).2) with _ | r
      · simp [h1, h1', hexp', hor, string_append_empty]
      · simp [h1, h1', hexp', hor, string_append_assoc]

theorem textsOf_nil (total_duration_ms num_chunks chunk_duration_ms : ℕ)
    (export_ok : ℕ × ℕ → Bool) (oracle : Dispatch → Option ChunkResult) :
    textsOf total_duration_ms num_chunks chunk_duration_ms export_ok oracle [] = "" := rfl

theorem textsOf_cons (total_duration_ms num_chunks chunk_duration_ms : ℕ)
    (export_ok : ℕ × ℕ → Bool) (oracle : Dispatch → Option ChunkResult)
    (i : ℕ) (l : List ℕ) :
    textsOf total_duration_ms num_chunks chunk_duration_ms export_ok oracle (i :: l) =
      text1 total_duration_ms num_chunks chunk_duration_ms export_ok oracle i ++
        textsOf total_duration_ms num_chunks chunk_duration_ms export_ok oracle l := by
  simp only [textsOf, successTexts, text1, List.filterMap_cons]
  cases contrib total_duration_ms num_chunks chunk_duration_ms export_ok oracle i <;>
    simp [concatStr, string_empty_append]

theorem segsOf_cons (total_duration_ms num_chunks chunk_duration_ms : ℕ)
    (export_ok : ℕ × ℕ → Bool) (oracle : Dispatch → Option ChunkResult)
    (i : ℕ) (l : List ℕ) :
    segsOf total_duration_ms num_chunks chunk_duration_ms export_ok oracle (i :: l) =
      segs1 total_duration_ms num_chunks chunk_duration_ms export_ok oracle i ++
        segsOf total_duration_ms num_chunks chunk_duration_ms export_ok oracle l := by
  simp only [segsOf, segs1, List.flatMap_cons]

theorem dispOf_cons (total_duration_ms num_chunks chunk_duration_ms : ℕ)
    (export_ok : ℕ × ℕ → Bool) (i : ℕ) (l : List ℕ) :
    dispOf total_duration_ms num_chunks chunk_duration_ms export_ok (i :: l) =
      disp1 total_duration_ms num_chunks chunk_duration_ms export_ok i ++
        dispOf total_duration_ms num_chunks chunk_duration_ms export_ok l := by
  simp only [dispOf, disp1, List.filterMap_cons]
  by_cases h : attempted total_duration_ms num_chunks chunk_duration_ms export_ok i = true <;>
    simp [h]

theorem langOf_cons (total_duration_ms num_chunks chunk_duration_ms : ℕ)
    (export_ok : ℕ × ℕ → Bool) (oracle : Dispatch → Option ChunkResult)
    (i : ℕ) (l : List ℕ) (lang : String) :
    langOf total_duration_ms num_chunks chunk_duration_ms export_ok oracle (i :: l) lang =
      langOf total_duration_ms num_chunks chunk_duration_ms export_ok oracle l
        (lang1 total_duration_ms num_chunks chunk_duration_ms export_ok oracle i lang) := by
  simp only [langOf, lang1, List.foldl_cons]

/-- Unfolding the chunk loop: folding `chunkStep` over any index list
appends exactly the per-index text, segment, and dispatch contributions,
and threads the last successful language. -/
theorem chunkFold (total_duration_ms num_chunks chunk_duration_ms : ℕ)
    (export_ok : ℕ × ℕ → Bool) (oracle : Dispatch → Option ChunkResult)
    (l : List ℕ) (st : LoopState) :
    l.foldl (chunkStep total_duration_ms num_chunks chunk_duration_ms export_ok oracle) st =
      ⟨st.all_text ++ textsOf total_duration_ms num_chunks chunk_duration_ms export_ok oracle l,
       st.all_segments ++ segsOf total_duration_ms num_chunks chunk_duration_ms export_ok oracle l,
       langOf total_duration_ms num_chunks chunk_duration_ms export_ok oracle l
         st.last_successful_lang,
       st.dispatches ++ dispOf total_duration_ms num_chunks chunk_duration_ms export_ok l⟩ := by
  induction l generalizing st with
  | nil =>
    simp [textsOf, successTexts, concatStr, segsOf, dispOf, langOf,
      string_append_empty]
  | cons i l ih =>
    rw [List.foldl_cons, chunkStep_eq, ih, textsOf_cons, segsOf_cons, dispOf_cons,
      langOf_cons]
    simp [string_append_assoc, List.append_assoc]

/-- Python `int()` on an exact rational value: truncation toward zero
(source line 344: `int(start_s * 1000)`). -/
def pyInt (q : ℚ) : ℤ := if 0 ≤ q then ⌊q⌋ else -⌊-q⌋

/-- One diarized speaker turn as yielded by
`diarization_info.itertracks(yield_label=True)` (line 342): a speaker label
and `turn.start` / `turn.end` in seconds.  The `end` field is called `stop`
because `end` is a Lean keyword. -/
structure Turn where
  speaker : String
  start : ℚ
  stop : ℚ
  deriving DecidableEq

/-- Source lines 344-345: `duracion_ms = int(end_s*1000) - int(start_s*1000)`. -/
def turn_duracion_ms (t : Turn) : ℤ := pyInt (t.stop * 1000) - pyInt (t.start * 1000)

/-- Observable actions of the per-turn loop: attempting to extract a turn's
audio slice (line 356), invoking the transcriber on the turn (line 372),
and appending a transcript line (line 378).  Each records the turn index. -/
inductive TurnEvent where
  | extract (i : ℕ)
  | transcribe (i : ℕ)
  | line (i : ℕ) (s : String)
  deriving DecidableEq

/-- One iteration of the per-turn loop (source lines 342-388) over the
enumerated turn `(i, t)`.  Oracle parameters embed the external effects:
`extract_ok i` is whether `audio_completo[start_ms:end_ms]` succeeds
(line 356), `export_ok_turn i` whether the turn WAV export succeeds
(line 364), and `ttr i` the outcome of the per-turn call to
`_transcribir_wav_con_chunking_opcional` with default (non-forced)
chunking (lines 372-374).  The accumulator is
`texto_diarizado_final` plus the event trace. -/
def turnStep (extract_ok export_ok_turn : ℕ → Bool)
    (ttr : ℕ → Option ChunkResult)
    (st : String × List TurnEvent) (p : ℕ × Turn) : String × List TurnEvent :=
  if turn_duracion_ms p.2 < 100 then st
  else
    let st1 := (st.1, st.2 ++ [TurnEvent.extract p.1])
    if extract_ok p.1 = false then st1
    else if export_ok_turn p.1 = false then st1
    else
      let st2 := (st1.1, st1.2 ++ [TurnEvent.transcribe p.1])
      match ttr p.1 with
      | some r =>
        if r.text = "" then st2
        else (st2.1 ++ (p.2.speaker ++ ": " ++ r.text ++ "\n"),
              st2.2 ++ [TurnEvent.line p.1 (p.2.speaker ++ ": " ++ r.text ++ "\n")])
      | none => st2

/-- The per-turn loop of `procesar_directorio` (lines 342-388), folding
over the enumerated turns. -/
def procesar_turnos (extract_ok export_ok_turn : ℕ → Bool)
    (ttr : ℕ → Option ChunkResult) (turns : List Turn) : String × List TurnEvent :=
  turns.enum.foldl (turnStep extract_ok export_ok_turn ttr) ("", [])

/-- The transcript line the enumerated turn `(i, t)` contributes, if any
(lines 376-378): a line is appended exactly when the turn is long enough,
extraction and export succeed, and the transcription result exists with
non-empty text. -/
def lineOf (extract_ok export_ok_turn : ℕ → Bool)
    (ttr : ℕ → Option ChunkResult) (p : ℕ × Turn) : Option String :=
  if turn_duracion_ms p.2 < 100 then none
  else if extract_ok p.1 = false then none
  else if export_ok_turn p.1 = false then none
  else
    match ttr p.1 with
    | some r => if r.text = "" then none
                else some (p.2.speaker ++ ": " ++ r.text ++ "\n")
    | none => none

/-- The events the enumerated turn `(i, t)` generates. -/
def eventsOf (extract_ok export_ok_turn : ℕ → Bool)
    (ttr : ℕ → Option ChunkResult) (p : ℕ × Turn) : List TurnEvent :=
  if turn_duracion_ms p.2 < 100 then []
  else
    [TurnEvent.extract p.1] ++
      (if extract_ok p.1 = false then []
       else if export_ok_turn p.1 = false then []
       else
         [TurnEvent.transcribe p.1] ++
           (match lineOf extract_ok export_ok_turn ttr p with
            | some s => [TurnEvent.line p.1 s]
            | none => []))

theorem turnStep_eq (extract_ok export_ok_turn : ℕ → Bool)
    (ttr : ℕ → Option ChunkResult) (st : String × List TurnEvent) (p : ℕ × Turn) :
    turnStep extract_ok export_ok_turn ttr st p =
      (st.1 ++ (match lineOf extract_ok export_ok_turn ttr p with
                | some s => s
                | none => ""),
       st.2 ++ eventsOf extract_ok export_ok_turn ttr p) := by
  simp only [turnStep, lineOf, eventsOf]
  by_cases h1 : turn_duracion_ms p.2 < 100
  · simp [h1, string_append_empty]
  · by_cases h2 : extract_ok p.1 = false
    · simp [h1, h2, string_append_empty]
    · by_cases h3 : export_ok_turn p.1 = false
      · simp [h1, h2, h3, string_append_empty]
      · rcases h4 : ttr p.1 with _ | r
        · simp [h1, h2, h3, h4, string_append_empty]
        · by_cases h5 : r.text = ""
          · simp [h1, h2, h3, h4, h5, string_append_empty]
          · simp [h1, h2, h3, h4, h5, List.append_assoc]

/-- Unfolding the per-turn loop: the accumulated transcript is the
concatenation of the per-turn lines and the trace is the concatenation of
the per-turn events. -/
theorem turnFold (extract_ok export_ok_turn : ℕ → Bool)
    (ttr : ℕ → Option ChunkResult) (l : List (ℕ × Turn))
    (st : String × List TurnEvent) :
    l.foldl (turnStep extract_ok export_ok_turn ttr) st =
      (st.1 ++ concatStr (l.filterMap (lineOf extract_ok export_ok_turn ttr)),
       st.2 ++ l.flatMap (eventsOf extract_ok export_ok_turn ttr)) := by
  induction l generalizing st with
  | nil => simp [concatStr, string_append_empty]
  | cons p l ih =>
    rw [List.foldl_cons, turnStep_eq, ih]
    simp only [List.filterMap_cons, List.flatMap_cons]
    rcases h : lineOf extract_ok export_ok_turn ttr p with _ | s
    · simp [h, string_append_empty, string_append_assoc, List.append_assoc,
        concatStr, string_empty_append]
    · simp [h, concatStr, string_append_assoc, List.append_assoc]

/-- The fixed fallback placeholder line of source line 334. -/
def placeholder_line : String := "SPEAKER_?: [Error en transcripción completa]\n"

/-- Per-file processing after WAV conversion (source lines 322-394),
producing `texto_diarizado_final` and the per-turn event trace.

`diarization` is the outcome of `diarizar_audio` (`none` both when the
pipeline is uninitialized and when it fails at runtime).  On `none` the
source transcribes the whole normalized WAV (of byte size `file_size` and
duration `total_duration_ms`) with `forzar_chunking=True` (line 329) and
emits either the labeled line (line 331) or the fixed placeholder line
(line 334).  On `some turns` it runs the per-turn loop. -/
def procesar_archivo (diarization : Option (List Turn))
    (file_size total_duration_ms : ℕ)
    (full_export_ok : ℕ × ℕ → Bool) (full_oracle : Dispatch → Option ChunkResult)
    (extract_ok export_ok_turn : ℕ → Bool) (ttr : ℕ → Option ChunkResult) :
    String × List TurnEvent :=
  match diarization with
  | none =>
    match (transcribir_wav_con_chunking_opcional file_size total_duration_ms
        full_export_ok full_oracle true).1 with
    | some r =>
      if r.text = "" then (placeholder_line, [])
      else ("SPEAKER_?: " ++ r.text ++ "\n", [])
    | none => (placeholder_line, [])
  | some turns => procesar_turnos extract_ok export_ok_turn ttr turns

/-- Index (from the left) of the last `'.'` in a file name, if any. -/
def rfindDotIdx (l : List Char) : Option ℕ :=
  match l.reverse.findIdx? (fun c => c == '.') with
  | some j => some (l.length - 1 - j)
  | none => none

/-- CPython `pathlib` suffix split point: the last `'.'` counts as starting
a suffix only when it is neither the first nor the last character of the
name; otherwise the name has no suffix and the split point is the name's
length. -/
def pySplitIdx (name : List Char) : ℕ :=
  match rfindDotIdx name with
  | some i => if 0 < i ∧ i + 1 < name.length then i else name.length
  | none => name.length

/-- `pathlib.Path(name).stem`. -/
def pyStem (name : String) : String :=
  String.mk (name.data.take (pySplitIdx name.data))

/-- `pathlib.Path(name).suffix`. -/
def pySuffix (name : String) : String :=
  String.mk (name.data.drop (pySplitIdx name.data))

/-- `pathlib.Path(name).with_suffix(suffix)`: the old suffix (if any) is
removed and the new one appended (source line 265:
`ruta_salida_base.with_suffix(".diarized.txt")`). -/
def pyWithSuffix (name suffix : String) : String :=
  String.mk (name.data.take (pySplitIdx name.data) ++ suffix.data)

/-- `open(..., encoding="latin-1", errors="ignore")` then `f.write(texto)`
(source line 268): each character with code point ≤ 255 becomes that byte;
non-encodable characters are dropped. -/
def latin1_ignore (s : String) : List ℕ :=
  s.data.filterMap (fun c => if c.toNat ≤ 255 then some c.toNat else none)

/-- `guardar_transcripcion` (source lines 254-272): the written file's name
and byte content.  `nombre_base` is the name component of
`ruta_salida_base = dir_salida / ruta_audio.stem` (line 303), i.e. the
input file's stem. -/
def guardar_transcripcion (texto_diarizado : String) (nombre_base : String) :
    String × List ℕ :=
  (pyWithSuffix nombre_base ".diarized.txt", latin1_ignore texto_diarizado)

/-- The write decision of source lines 390-394: the transcript is saved
exactly when `texto_diarizado_final` is non-empty; otherwise no output
file is produced for this input. -/
def salida_archivo (diarization : Option (List Turn))
    (file_size total_duration_ms : ℕ)
    (full_export_ok : ℕ × ℕ → Bool) (full_oracle : Dispatch → Option ChunkResult)
    (extract_ok export_ok_turn : ℕ → Bool) (ttr : ℕ → Option ChunkResult)
    (nombre_base : String) : Option (String × List ℕ) :=
  let texto := (procesar_archivo diarization file_size total_duration_ms
    full_export_ok full_oracle extract_ok export_ok_turn ttr).1
  if texto = "" then none else some (guardar_transcripcion texto nombre_base)

theorem WHISPER_API_LIMIT_BYTES_pos : 0 < WHISPER_API_LIMIT_BYTES := by
  norm_num [WHISPER_API_LIMIT_BYTES]

theorem num_chunksVal_pos (fs : ℕ) : 1 ≤ num_chunksVal fs := by
  unfold num_chunksVal
  split
  · next h =>
    have hle : WHISPER_API_LIMIT_BYTES ≤ fs + WHISPER_API_LIMIT_BYTES - 1 := by
      have := WHISPER_API_LIMIT_BYTES_pos
      omega
    exact (Nat.one_le_div_iff WHISPER_API_LIMIT_BYTES_pos).mpr hle
  · exact le_refl 1

theorem chunk_durationVal_eq (fs total_duration_ms : ℕ)
    (hd : num_chunksVal fs ≤ total_duration_ms) :
    chunk_durationVal fs total_duration_ms = total_duration_ms / num_chunksVal fs := by
  have hpos : 0 < num_chunksVal fs := num_chunksVal_pos fs
  have h1 : 1 ≤ total_duration_ms / num_chunksVal fs :=
    (Nat.one_le_div_iff hpos).mpr hd
  simp only [chunk_durationVal]
  rw [if_neg]
  rintro ⟨h0, _⟩
  omega

theorem chunk_durationVal_pos (fs total_duration_ms : ℕ)
    (hd : num_chunksVal fs ≤ total_duration_ms) :
    0 < chunk_durationVal fs total_duration_ms := by
  rw [chunk_durationVal_eq fs total_duration_ms hd]
  exact (Nat.one_le_div_iff (num_chunksVal_pos fs)).mpr hd

theorem filterMap_if_all_some (l : List ℕ) (f : ℕ → ℕ × ℕ)
    (h : ∀ i ∈ l, ¬ (f i).2 ≤ (f i).1) :
    (l.filterMap (fun i => if (f i).2 ≤ (f i).1 then none else some (f i))) = l.map f := by
  induction l with
  | nil => simp
  | cons a l ih =>
    rw [List.filterMap_cons, if_neg (h a (List.mem_cons_self a l))]
    rw [List.map_cons, ih (fun i hi => h i (List.mem_cons_of_mem a hi))]

/-- C1 (amended): when the chunking path splits a unit (size over budget or
chunking forced) and the computed equal chunk length
`⌊duration / num_chunks⌋` is positive — equivalently
`num_chunks ≤ total_duration_ms` — the loop's intervals realize the claim:
`num_chunks = max 1 ⌈size / budget⌉`; no interval is skipped; the first
`num_chunks - 1` intervals all have length `chunk_duration_ms` and the last
absorbs the rounding remainder; consecutive intervals are contiguous,
earlier intervals end no later than later ones start (no overlap), each
interval is non-empty, and together they cover exactly
`[0, total_duration_ms]`. -/
theorem claim_C1 (fs total_duration_ms : ℕ)
    (hd : num_chunksVal fs ≤ total_duration_ms) :
    num_chunksVal fs =
      max 1 ((fs + WHISPER_API_LIMIT_BYTES - 1) / WHISPER_API_LIMIT_BYTES) ∧
    chunkIntervals total_duration_ms (num_chunksVal fs)
        (chunk_durationVal fs total_duration_ms) =
      (List.range (num_chunksVal fs)).map
        (interval total_duration_ms (num_chunksVal fs)
          (chunk_durationVal fs total_duration_ms)) ∧
    (chunkIntervals total_duration_ms (num_chunksVal fs)
        (chunk_durationVal fs total_duration_ms)).length = num_chunksVal fs ∧
    (∀ i, i + 1 < num_chunksVal fs →
      (interval total_duration_ms (num_chunksVal fs)
          (chunk_durationVal fs total_duration_ms) i).2 -
        (interval total_duration_ms (num_chunksVal fs)
          (chunk_durationVal fs total_duration_ms) i).1 =
        chunk_durationVal fs total_duration_ms) ∧
    (interval total_duration_ms (num_chunksVal fs)
        (chunk_durationVal fs total_duration_ms) (num_chunksVal fs - 1)).2 -
      (interval total_duration_ms (num_chunksVal fs)
        (chunk_durationVal fs total_duration_ms) (num_chunksVal fs - 1)).1 =
      chunk_durationVal fs total_duration_ms + total_duration_ms % num_chunksVal fs ∧
    (interval total_duration_ms (num_chunksVal fs)
        (chunk_durationVal fs total_duration_ms) 0).1 = 0 ∧
    (interval total_duration_ms (num_chunksVal fs)
        (chunk_durationVal fs total_duration_ms) (num_chunksVal fs - 1)).2 =
      total_duration_ms ∧
    (∀ i, i + 1 < num_chunksVal fs →
      (interval total_duration_ms (num_chunksVal fs)
          (chunk_durationVal fs total_duration_ms) i).2 =
        (interval total_duration_ms (num_chunksVal fs)
          (chunk_durationVal fs total_duration_ms) (i + 1)).1) ∧
    (∀ i j, i + 1 ≤ j → j < num_chunksVal fs →
      (interval total_duration_ms (num_chunksVal fs)
          (chunk_durationVal fs total_duration_ms) i).2 ≤
        (interval total_duration_ms (num_chunksVal fs)
          (chunk_durationVal fs total_duration_ms) j).1) ∧
    (∀ i, i < num_chunksVal fs →
      (interval total_duration_ms (num_chunksVal fs)
          (chunk_durationVal fs total_duration_ms) i).1 <
        (interval total_duration_ms (num_chunksVal fs)
          (chunk_durationVal fs total_duration_ms) i).2) := by
  have hn : 1 ≤ num_chunksVal fs := num_chunksVal_pos fs
  have hdq : chunk_durationVal fs total_duration_ms =
      total_duration_ms / num_chunksVal fs := chunk_durationVal_eq fs total_duration_ms hd
  have hdpos : 0 < chunk_durationVal fs total_duration_ms :=
    chunk_durationVal_pos fs total_duration_ms hd
  set n := num_chunksVal fs with hnval
  set d := chunk_durationVal fs total_duration_ms with hdval
  have hmod : n * d + total_duration_ms % n = total_duration_ms := by
    rw [hdq]
    exact Nat.div_add_mod total_duration_ms n
  have hnd : n * d ≤ total_duration_ms := by omega
  have hdlend : d ≤ n * d := Nat.le_mul_of_pos_left d hn
  -- each interval is non-empty
  have hne : ∀ i, i < n →
      (interval total_duration_ms n d i).1 < (interval total_duration_ms n d i).2 := by
    intro i hi
    by_cases hi2 : i < n - 1
    · rw [interval, if_pos hi2]
      have : (i + 1) * d = i * d + d := by ring
      simp only
      omega
    · rw [interval, if_neg hi2]
      have hieq : i = n - 1 := by omega
      subst hieq
      have h1 : (n - 1) * d = n * d - d := by
        rw [Nat.sub_mul, one_mul]
      simp only
      omega
  refine ⟨?_, ?_, ?_, ?_, ?_, ?_, ?_, ?_, ?_, hne⟩
  · -- num_chunks = max 1 ceil(size / budget)
    rw [hnval]
    unfold num_chunksVal
    split
    · next h =>
      symm
      apply Nat.max_eq_right
      have hle : WHISPER_API_LIMIT_BYTES ≤ fs + WHISPER_API_LIMIT_BYTES - 1 := by
        have := WHISPER_API_LIMIT_BYTES_pos
        omega
      exact (Nat.one_le_div_iff WHISPER_API_LIMIT_BYTES_pos).mpr hle
    · next h =>
      symm
      apply Nat.max_eq_left
      have hlt : fs + WHISPER_API_LIMIT_BYTES - 1 < 2 * WHISPER_API_LIMIT_BYTES := by
        have := WHISPER_API_LIMIT_BYTES_pos
        omega
      have : (fs + WHISPER_API_LIMIT_BYTES - 1) / WHISPER_API_LIMIT_BYTES < 2 :=
        (Nat.div_lt_iff_lt_mul WHISPER_API_LIMIT_BYTES_pos).mpr hlt
      omega
  · -- no interval is skipped
    unfold chunkIntervals
    exact filterMap_if_all_some (List.range n) (interval total_duration_ms n d)
      (fun i hi => Nat.not_le.mpr (hne i (List.mem_range.mp hi)))
  · -- as many intervals as chunks
    unfold chunkIntervals
    rw [filterMap_if_all_some (List.range n) (interval total_duration_ms n d)
      (fun i hi => Nat.not_le.mpr (hne i (List.mem_range.mp hi)))]
    simp
  · -- all but the last interval have length d
    intro i hi
    rw [interval, if_pos (by omega : i < n - 1)]
    have : (i + 1) * d = i * d + d := by ring
    simp only
    omega
  · -- the last interval has length d plus the remainder
    rw [interval, if_neg (by omega : ¬ n - 1 < n - 1)]
    have h1 : (n - 1) * d = n * d - d := by
      rw [Nat.sub_mul, one_mul]
    simp only
    omega
  · -- coverage starts at 0
    rw [interval]
    simp
  · -- coverage ends at the total duration
    rw [interval, if_neg (by omega : ¬ n - 1 < n - 1)]
  · -- consecutive intervals are contiguous
    intro i hi
    rw [interval, if_pos (by omega : i < n - 1), interval]
  · -- an earlier interval ends no later than a later one starts
    intro i j hij hj
    rw [interval, if_pos (by omega : i < n - 1), interval]
    simp only
    exact Nat.mul_le_mul_right d hij

/-- C1 counterexample: a header-only WAV (44 bytes, zero audio duration)
with chunking forced.  The claim asserts the transcriber splits the unit's
duration into `max(1, ceil(44 / budget)) = 1` interval covering exactly
`[0, 0]`; instead the source computes `chunk_duration_ms = 0`, gives up
before the loop (line 145-147), processes no interval, and fails the unit
with no dispatch at all. -/
theorem claim_C1_counterexample :
    transcribir_wav_con_chunking_opcional 44 0 (fun _ => true)
        (fun _ => some ⟨"hola", [], "es"⟩) true = (none, []) ∧
    num_chunksVal 44 = 1 ∧
    chunkIntervals 0 (num_chunksVal 44) (chunk_durationVal 44 0) = [] := by
  refine ⟨?_, by decide, by decide⟩
  rfl

/-- C1 witness: the amended statement applied to a unit of 0 bytes and
1000 ms with chunking forced. -/
theorem claim_C1_witness :
    num_chunksVal 0 ≤ 1000 ∧
    chunkIntervals 1000 (num_chunksVal 0) (chunk_durationVal 0 1000) =
      (List.range (num_chunksVal 0)).map
        (interval 1000 (num_chunksVal 0) (chunk_durationVal 0 1000)) ∧
    (interval 1000 (num_chunksVal 0) (chunk_durationVal 0 1000)
        (num_chunksVal 0 - 1)).2 = 1000 :=
  ⟨by decide, (claim_C1 0 1000 (by decide)).2.1, (claim_C1 0 1000 (by decide)).2.2.2.2.2.2.1⟩

/-- C2: for a unit whose byte size is within the budget and with chunking
not forced, `transcribe` makes exactly one dispatch — the whole unit — and
returns the primitive's result unmodified. -/
theorem claim_C2 (fs total_duration_ms : ℕ) (export_ok : ℕ × ℕ → Bool)
    (oracle : Dispatch → Option ChunkResult)
    (h : fs ≤ WHISPER_API_LIMIT_BYTES) :
    transcribir_wav_con_chunking_opcional fs total_duration_ms export_ok oracle false =
      (oracle Dispatch.whole, [Dispatch.whole]) := by
  unfold transcribir_wav_con_chunking_opcional
  rw [if_pos ⟨rfl, h⟩]

/-- C2 witness: a 0-byte unit dispatched directly. -/
theorem claim_C2_witness :
    (0 : ℕ) ≤ WHISPER_API_LIMIT_BYTES ∧
    transcribir_wav_con_chunking_opcional 0 0 (fun _ => true)
        (fun _ => some ⟨"hola", [⟨0, 1, "hola"⟩], "es"⟩) false =
      (some ⟨"hola", [⟨0, 1, "hola"⟩], "es"⟩, [Dispatch.whole]) :=
  ⟨by decide, by rw [claim_C2 0 0 (fun _ => true)
      (fun _ => some ⟨"hola", [⟨0, 1, "hola"⟩], "es"⟩) (by decide)]⟩

theorem string_data_empty : ("" : String).data = [] := rfl

theorem string_ne_empty_of_data_ne_nil (s : String) (h : s.data ≠ []) : s ≠ "" := by
  intro he
  exact h (by rw [he, string_data_empty])

theorem concatStr_eq_empty_iff (L : List String) :
    concatStr L = "" ↔ ∀ s ∈ L, s = "" := by
  induction L with
  | nil => simp [concatStr]
  | cons a l ih =>
    have hcons : concatStr (a :: l) = a ++ concatStr l := rfl
    rw [hcons]
    constructor
    · intro h
      have hdata : a.data ++ (concatStr l).data = [] := by
        rw [← string_data_append, h, string_data_empty]
      rcases List.append_eq_nil.mp hdata with ⟨ha, hl⟩
      intro s hs
      rcases List.mem_cons.mp hs with rfl | hs'
      · exact String.ext ha
      · exact ih.mp (String.ext hl) s hs'
    · intro h
      rw [h a (List.mem_cons_self a l), string_empty_append]
      exact ih.mpr (fun s hs => h s (List.mem_cons_of_mem a hs))

/-- The chunked path of the transcriber, characterized by the per-chunk
contribution functions. -/
theorem transcribir_chunked (fs total_duration_ms : ℕ) (export_ok : ℕ × ℕ → Bool)
    (oracle : Dispatch → Option ChunkResult) (forzar_chunking : Bool)
    (hpath : forzar_chunking = true ∨ WHISPER_API_LIMIT_BYTES < fs)
    (hd : chunk_durationVal fs total_duration_ms ≠ 0) :
    transcribir_wav_con_chunking_opcional fs total_duration_ms export_ok oracle
        forzar_chunking =
      (if textsOf total_duration_ms (num_chunksVal fs)
          (chunk_durationVal fs total_duration_ms) export_ok oracle
          (List.range (num_chunksVal fs)) = "" then none
       else some
        ⟨pyStrip (textsOf total_duration_ms (num_chunksVal fs)
            (chunk_durationVal fs total_duration_ms) export_ok oracle
            (List.range (num_chunksVal fs))),
         segsOf total_duration_ms (num_chunksVal fs)
            (chunk_durationVal fs total_duration_ms) export_ok oracle
            (List.range (num_chunksVal fs)),
         langOf total_duration_ms (num_chunksVal fs)
            (chunk_durationVal fs total_duration_ms) export_ok oracle
            (List.range (num_chunksVal fs)) "unknown"⟩,
       dispOf total_duration_ms (num_chunksVal fs)
          (chunk_durationVal fs total_duration_ms) export_ok
          (List.range (num_chunksVal fs))) := by
  unfold transcribir_wav_con_chunking_opcional
  rw [if_neg (by
    rintro ⟨h1, h2⟩
    rcases hpath with hf | hs
    · rw [hf] at h1; exact Bool.noConfusion h1
    · omega)]
  simp only [chunkFold, if_neg hd, string_empty_append, List.nil_append]
  split_ifs <;> rfl

theorem successTexts_mem (total_duration_ms num_chunks chunk_duration_ms : ℕ)
    (export_ok : ℕ × ℕ → Bool) (oracle : Dispatch → Option ChunkResult)
    (i : ℕ) (r : ChunkResult) (hi : i < num_chunks)
    (hc : contrib total_duration_ms num_chunks chunk_duration_ms export_ok oracle i =
      some r) :
    r.text ∈ successTexts total_duration_ms num_chunks chunk_duration_ms export_ok oracle
      (List.range num_chunks) := by
  exact List.mem_filterMap.mpr ⟨i, List.mem_range.mpr hi, by rw [hc]; rfl⟩

theorem textsOf_ne_empty (total_duration_ms num_chunks chunk_duration_ms : ℕ)
    (export_ok : ℕ × ℕ → Bool) (oracle : Dispatch → Option ChunkResult)
    (i : ℕ) (r : ChunkResult) (hi : i < num_chunks)
    (hc : contrib total_duration_ms num_chunks chunk_duration_ms export_ok oracle i =
      some r) :
    textsOf total_duration_ms num_chunks chunk_duration_ms export_ok oracle
      (List.range num_chunks) ≠ "" := by
  intro he
  have hmem : r.text ++ " " ∈
      (successTexts total_duration_ms num_chunks chunk_duration_ms export_ok oracle
        (List.range num_chunks)).map (fun t => t ++ " ") :=
    List.mem_map_of_mem _ (successTexts_mem total_duration_ms num_chunks
      chunk_duration_ms export_ok oracle i r hi hc)
  have : r.text ++ " " = "" := (concatStr_eq_empty_iff _).mp he _ hmem
  have hdata : r.text.data ++ (" " : String).data = [] := by
    rw [← string_data_append, this, string_data_empty]
  simp at hdata

/-- C3: in the chunked path, every segment of a successfully dispatched
chunk appears in the combined result with both of its timestamps re-based
by pure offset addition — the chunk interval's start in seconds
(`start_ms / 1000`) added to the chunk-local `start` and `end` — and the
combined segment list is exactly the in-order concatenation of the shifted
copies of the per-chunk segment lists (`shiftSeg` builds a new record from
a copy, never altering the chunk's own result). -/
theorem claim_C3 (fs total_duration_ms : ℕ) (export_ok : ℕ × ℕ → Bool)
    (oracle : Dispatch → Option ChunkResult) (forzar_chunking : Bool)
    (hpath : forzar_chunking = true ∨ WHISPER_API_LIMIT_BYTES < fs)
    (hd : chunk_durationVal fs total_duration_ms ≠ 0)
    (i : ℕ) (r : ChunkResult) (hi : i < num_chunksVal fs)
    (hc : contrib total_duration_ms (num_chunksVal fs)
      (chunk_durationVal fs total_duration_ms) export_ok oracle i = some r) :
    ∃ c, (transcribir_wav_con_chunking_opcional fs total_duration_ms export_ok oracle
        forzar_chunking).1 = some c ∧
      c.segments = segsOf total_duration_ms (num_chunksVal fs)
        (chunk_durationVal fs total_duration_ms) export_ok oracle
        (List.range (num_chunksVal fs)) ∧
      ∀ seg ∈ r.segments,
        shiftSeg (((interval total_duration_ms (num_chunksVal fs)
            (chunk_durationVal fs total_duration_ms) i).1 : ℚ) / 1000) seg ∈
          c.segments := by
  rw [transcribir_chunked fs total_duration_ms export_ok oracle forzar_chunking hpath hd]
  rw [if_neg (textsOf_ne_empty total_duration_ms (num_chunksVal fs)
    (chunk_durationVal fs total_duration_ms) export_ok oracle i r hi hc)]
  refine ⟨_, rfl, rfl, ?_⟩
  intro seg hseg
  apply List.mem_flatMap.mpr
  refine ⟨i, List.mem_range.mpr hi, ?_⟩
  rw [hc]
  exact List.mem_map_of_mem _ hseg

/-- C3 witness: a forced single-chunk unit whose one dispatch succeeds with
one segment. -/
theorem claim_C3_witness :
    contrib 1000 (num_chunksVal 0) (chunk_durationVal 0 1000) (fun _ => true)
        (fun _ => some ⟨"hola", [⟨0, 1, "hola"⟩], "es"⟩) 0 =
      some ⟨"hola", [⟨0, 1, "hola"⟩], "es"⟩ ∧
    ∃ c, (transcribir_wav_con_chunking_opcional 0 1000 (fun _ => true)
        (fun _ => some ⟨"hola", [⟨0, 1, "hola"⟩], "es"⟩) true).1 = some c ∧
      c.segments = segsOf 1000 (num_chunksVal 0) (chunk_durationVal 0 1000)
        (fun _ => true) (fun _ => some ⟨"hola", [⟨0, 1, "hola"⟩], "es"⟩)
        (List.range (num_chunksVal 0)) ∧
      ∀ seg ∈ [(⟨0, 1, "hola"⟩ : Segment)],
        shiftSeg (((interval 1000 (num_chunksVal 0) (chunk_durationVal 0 1000) 0).1 : ℚ)
          / 1000) seg ∈ c.segments :=
  ⟨rfl, claim_C3 0 1000 (fun _ => true)
    (fun _ => some ⟨"hola", [⟨0, 1, "hola"⟩], "es"⟩) true (Or.inl rfl)
    (by decide) 0 ⟨"hola", [⟨0, 1, "hola"⟩], "es"⟩ (by decide) rfl⟩

theorem textsOf_eq_empty_iff (total_duration_ms num_chunks chunk_duration_ms : ℕ)
    (export_ok : ℕ × ℕ → Bool) (oracle : Dispatch → Option ChunkResult) :
    textsOf total_duration_ms num_chunks chunk_duration_ms export_ok oracle
        (List.range num_chunks) = "" ↔
      ∀ i < num_chunks,
        contrib total_duration_ms num_chunks chunk_duration_ms export_ok oracle i =
          none := by
  constructor
  · intro he i hi
    rcases hcon : contrib total_duration_ms num_chunks chunk_duration_ms export_ok
        oracle i with _ | r
    · rfl
    · exact absurd he (textsOf_ne_empty total_duration_ms num_chunks
        chunk_duration_ms export_ok oracle i r hi hcon)
  · intro hall
    have hs : successTexts total_duration_ms num_chunks chunk_duration_ms export_ok
        oracle (List.range num_chunks) = [] := by
      apply List.filterMap_eq_nil_iff.mpr
      intro i hi
      rw [hall i (List.mem_range.mp hi)]
      rfl
    rw [textsOf, hs]
    rfl

/-- C4 (amended): in the chunked path (with a positive chunk length) the
unit fails if and only if *no chunk dispatch succeeded at all*.  A dispatch
that succeeds with empty text still counts as a success — the source's
emptiness test `if not all_text` cannot fire because every success appends
a trailing `" "` — so "no interval produced any text" does not imply
failure; only "no interval produced a result" does. -/
theorem claim_C4 (fs total_duration_ms : ℕ) (export_ok : ℕ × ℕ → Bool)
    (oracle : Dispatch → Option ChunkResult) (forzar_chunking : Bool)
    (hpath : forzar_chunking = true ∨ WHISPER_API_LIMIT_BYTES < fs)
    (hd : chunk_durationVal fs total_duration_ms ≠ 0) :
    (transcribir_wav_con_chunking_opcional fs total_duration_ms export_ok oracle
        forzar_chunking).1 = none ↔
      ∀ i < num_chunksVal fs,
        contrib total_duration_ms (num_chunksVal fs)
          (chunk_durationVal fs total_duration_ms) export_ok oracle i = none := by
  rw [transcribir_chunked fs total_duration_ms export_ok oracle forzar_chunking hpath hd]
  by_cases ht : textsOf total_duration_ms (num_chunksVal fs)
      (chunk_durationVal fs total_duration_ms) export_ok oracle
      (List.range (num_chunksVal fs)) = ""
  · simp only [if_pos ht]
    constructor
    · intro _
      exact (textsOf_eq_empty_iff total_duration_ms (num_chunksVal fs)
        (chunk_durationVal fs total_duration_ms) export_ok oracle).mp ht
    · intro _
      trivial
  · simp only [if_neg ht]
    constructor
    · intro h
      cases h
    · intro hall
      exact absurd ((textsOf_eq_empty_iff total_duration_ms (num_chunksVal fs)
        (chunk_durationVal fs total_duration_ms) export_ok oracle).mpr hall) ht

/-- C4 counterexample: a forced single-chunk unit whose one dispatch
*succeeds with empty text*.  No interval produced any text, yet the
transcriber does not fail: it returns a `UnitResult` with empty text
(the claimed equivalence between "no text produced" and "zero successful
sub-chunks" does not hold on the code). -/
theorem claim_C4_counterexample :
    (transcribir_wav_con_chunking_opcional 44 1000 (fun _ => true)
        (fun _ => some ⟨"", [], "es"⟩) true).1 = some ⟨"", [], "es"⟩ ∧
    (⟨"", [], "es"⟩ : ChunkResult).text = "" := by
  exact ⟨rfl, rfl⟩

/-- C4 witness: the amended statement applied to a forced single-chunk unit
whose dispatch fails outright. -/
theorem claim_C4_witness :
    (true = true ∨ WHISPER_API_LIMIT_BYTES < 44) ∧
    chunk_durationVal 44 1000 ≠ 0 ∧
    ((transcribir_wav_con_chunking_opcional 44 1000 (fun _ => true)
        (fun _ => none) true).1 = none ↔
      ∀ i < num_chunksVal 44,
        contrib 1000 (num_chunksVal 44) (chunk_durationVal 44 1000)
          (fun _ => true) (fun _ => none) i = none) :=
  ⟨Or.inl rfl, by decide,
    claim_C4 44 1000 (fun _ => true) (fun _ => none) true (Or.inl rfl) (by decide)⟩

/-- Modelled from the spec's words — "`text` is the space-joined,
order-preserved concatenation of all sub-chunk texts that succeeded" — for
comparison with what the code computes. -/
def spec_space_join : List String → String
  | [] => ""
  | [t] => t
  | t :: ts => t ++ " " ++ spec_space_join ts

/-- C5 counterexample: a forced single-chunk unit whose one dispatch
succeeds with the text `"hola "` (trailing space, as Whisper routinely
returns).  The space-joined concatenation of the successful texts is
`"hola "`, but the code's final `all_text.strip()` returns `"hola"` — the
claimed equality fails. -/
theorem claim_C5_counterexample :
    (transcribir_wav_con_chunking_opcional 44 1000 (fun _ => true)
        (fun _ => some ⟨"hola ", [], "es"⟩) true).1 = some ⟨"hola", [], "es"⟩ ∧
    successTexts 1000 (num_chunksVal 44) (chunk_durationVal 44 1000)
        (fun _ => true) (fun _ => some ⟨"hola ", [], "es"⟩)
        (List.range (num_chunksVal 44)) = ["hola "] ∧
    spec_space_join ["hola "] = "hola " ∧
    ("hola" : String) ≠ "hola " := by
  refine ⟨by decide, by decide, rfl, by decide⟩

theorem dropWhile_length_le (p : Char → Bool) (l : List Char) :
    (l.dropWhile p).length ≤ l.length :=
  (List.dropWhile_suffix p).sublist.length_le

theorem dropWhile_eq_self_of_length (p : Char → Bool) (l : List Char)
    (h : (l.dropWhile p).length = l.length) : l.dropWhile p = l :=
  (List.dropWhile_suffix p).sublist.eq_of_length h

theorem dropWhile_head_false (p : Char → Bool) (c : Char) (cs : List Char)
    (h : (c :: cs).dropWhile p = c :: cs) : p c = false := by
  by_cases hp : p c = true
  · exfalso
    rw [List.dropWhile_cons, if_pos hp] at h
    have := dropWhile_length_le p cs
    have hlen := congrArg List.length h
    simp at hlen
    omega
  · exact Bool.eq_false_iff.mpr hp

theorem stripChars_fixed (l : List Char) (h : stripChars l = l) :
    l.dropWhile isPySpace = l ∧ l.reverse.dropWhile isPySpace = l.reverse := by
  have hlen1 : (l.dropWhile isPySpace).length ≤ l.length :=
    dropWhile_length_le isPySpace l
  have hlen2 : ((l.dropWhile isPySpace).reverse.dropWhile isPySpace).length ≤
      (l.dropWhile isPySpace).length := by
    have := dropWhile_length_le isPySpace (l.dropWhile isPySpace).reverse
    simpa using this
  have hslen : (stripChars l).length = l.length := by rw [h]
  have hslen' : (stripChars l).length =
      ((l.dropWhile isPySpace).reverse.dropWhile isPySpace).length := by
    simp [stripChars]
  have hfix1 : l.dropWhile isPySpace = l := by
    apply dropWhile_eq_self_of_length
    omega
  refine ⟨hfix1, ?_⟩
  have : stripChars l = (l.reverse.dropWhile isPySpace).reverse := by
    rw [stripChars, hfix1]
  rw [this] at h
  have := congrArg List.reverse h
  simpa using this

theorem stripChars_append_space (X : List Char) (hne : X ≠ [])
    (h1 : X.dropWhile isPySpace = X)
    (h2 : X.reverse.dropWhile isPySpace = X.reverse) :
    stripChars (X ++ [' ']) = X := by
  rcases X with _ | ⟨c, cs⟩
  · exact absurd rfl hne
  · have hc : isPySpace c = false := dropWhile_head_false isPySpace c cs h1
    rw [stripChars]
    rw [List.cons_append, List.dropWhile_cons, if_neg (by rw [hc]; simp)]
    rw [List.reverse_cons]
    rw [show (cs ++ [' ']).reverse ++ [c] = ' ' :: (cs.reverse ++ [c]) by
      simp [List.reverse_append]]
    rw [List.dropWhile_cons, if_pos (by decide)]
    have hrev : cs.reverse ++ [c] = (c :: cs).reverse := by simp
    rw [hrev, h2]
    simp

theorem string_mk_data (s : String) : String.mk s.data = s := by cases s; rfl

theorem string_data_space : (" " : String).data = [' '] := rfl

theorem concat_map_space_data : ∀ (ts : List String), ts ≠ [] →
    (concatStr (ts.map (fun t => t ++ " "))).data =
      (spec_space_join ts).data ++ [' ']
  | [], h => absurd rfl h
  | [t], _ => by
    show ((t ++ " ") ++ "").data = (spec_space_join [t]).data ++ [' ']
    rw [string_append_empty, string_data_append, string_data_space, spec_space_join]
  | t :: t' :: ts, _ => by
    have ih := concat_map_space_data (t' :: ts) (by simp)
    show ((t ++ " ") ++ concatStr ((t' :: ts).map (fun t => t ++ " "))).data =
      (t ++ " " ++ spec_space_join (t' :: ts)).data ++ [' ']
    rw [string_data_append, ih, string_data_append, string_data_append,
      string_data_append, string_data_space]
    simp [List.append_assoc]

theorem spec_space_join_data_ne_nil : ∀ (ts : List String), ts ≠ [] →
    (∀ t ∈ ts, t.data ≠ []) → (spec_space_join ts).data ≠ []
  | [], h, _ => absurd rfl h
  | [t], _, hd => by
    show (spec_space_join [t]).data ≠ []
    rw [spec_space_join]
    exact hd t (List.mem_singleton.mpr rfl)
  | t :: t' :: ts, _, hd => by
    show (t ++ " " ++ spec_space_join (t' :: ts)).data ≠ []
    rw [string_data_append, string_data_append]
    intro h
    rcases List.append_eq_nil.mp h with ⟨h1, _⟩
    rcases List.append_eq_nil.mp h1 with ⟨h2, _⟩
    exact hd t (List.mem_cons_self t _) h2

theorem spec_space_join_dropWhile : ∀ (ts : List String), ts ≠ [] →
    (∀ t ∈ ts, t.data ≠ [] ∧ t.data.dropWhile isPySpace = t.data) →
    (spec_space_join ts).data.dropWhile isPySpace = (spec_space_join ts).data
  | [], h, _ => absurd rfl h
  | [t], _, hd => by
    show (spec_space_join [t]).data.dropWhile isPySpace = (spec_space_join [t]).data
    rw [spec_space_join]
    exact (hd t (List.mem_singleton.mpr rfl)).2
  | t :: t' :: ts, _, hd => by
    show (t ++ " " ++ spec_space_join (t' :: ts)).data.dropWhile isPySpace =
      (t ++ " " ++ spec_space_join (t' :: ts)).data
    rcases hd t (List.mem_cons_self t _) with ⟨hne, hfix⟩
    rcases hdat : t.data with _ | ⟨c, cs⟩
    · exact absurd hdat hne
    · have hc : isPySpace c = false := by
        apply dropWhile_head_false isPySpace c cs
        rw [← hdat]
        exact hfix
      rw [string_data_append, string_data_append, hdat]
      rw [List.cons_append, List.cons_append, List.dropWhile_cons,
        if_neg (by rw [hc]; simp)]

theorem spec_space_join_rev_dropWhile : ∀ (ts : List String), ts ≠ [] →
    (∀ t ∈ ts, t.data ≠ [] ∧ t.data.reverse.dropWhile isPySpace = t.data.reverse) →
    (spec_space_join ts).data.reverse.dropWhile isPySpace =
      (spec_space_join ts).data.reverse
  | [], h, _ => absurd rfl h
  | [t], _, hd => by
    show (spec_space_join [t]).data.reverse.dropWhile isPySpace =
      (spec_space_join [t]).data.reverse
    rw [spec_space_join]
    exact (hd t (List.mem_singleton.mpr rfl)).2
  | t :: t' :: ts, _, hd => by
    have ih := spec_space_join_rev_dropWhile (t' :: ts) (by simp)
      (fun u hu => hd u (List.mem_cons_of_mem t hu))
    have hRne : (spec_space_join (t' :: ts)).data ≠ [] :=
      spec_space_join_data_ne_nil (t' :: ts) (by simp)
        (fun u hu => (hd u (List.mem_cons_of_mem t hu)).1)
    have hRrevne : (spec_space_join (t' :: ts)).data.reverse ≠ [] := by
      simpa using hRne
    rcases hrev : (spec_space_join (t' :: ts)).data.reverse with _ | ⟨c, cs⟩
    · exact absurd hrev hRrevne
    · have hc : isPySpace c = false := by
        apply dropWhile_head_false isPySpace c cs
        rw [← hrev]
        exact ih
      show (t ++ " " ++ spec_space_join (t' :: ts)).data.reverse.dropWhile isPySpace =
        (t ++ " " ++ spec_space_join (t' :: ts)).data.reverse
      rw [string_data_append, string_data_append, string_data_space]
      rw [List.reverse_append, List.reverse_append, hrev]
      rw [List.cons_append, List.dropWhile_cons, if_neg (by rw [hc]; simp)]

/-- The code's accumulator text (`join of (text + " ")` then `strip()`)
agrees with the spec's plain space-join whenever every successful text is
non-empty and already stripped. -/
theorem pyStrip_join_tidy (ts : List String) (hne : ts ≠ [])
    (htidy : ∀ t ∈ ts, t ≠ "" ∧ pyStrip t = t) :
    pyStrip (concatStr (ts.map (fun t => t ++ " "))) = spec_space_join ts := by
  have hdat : ∀ t ∈ ts, t.data ≠ [] ∧ t.data.dropWhile isPySpace = t.data ∧
      t.data.reverse.dropWhile isPySpace = t.data.reverse := by
    intro t ht
    rcases htidy t ht with ⟨h1, h2⟩
    have hfix : stripChars t.data = t.data := by
      have := congrArg String.data h2
      simpa [pyStrip] using this
    have hd1 : t.data ≠ [] := by
      intro hd0
      apply h1
      rw [string_eq_iff_data, hd0, string_data_empty]
    rcases stripChars_fixed t.data hfix with ⟨ha, hb⟩
    exact ⟨hd1, ha, hb⟩
  rw [pyStrip, concat_map_space_data ts hne]
  rw [stripChars_append_space (spec_space_join ts).data
    (spec_space_join_data_ne_nil ts hne (fun t ht => (hdat t ht).1))
    (spec_space_join_dropWhile ts hne (fun t ht => ⟨(hdat t ht).1, (hdat t ht).2.1⟩))
    (spec_space_join_rev_dropWhile ts hne (fun t ht => ⟨(hdat t ht).1, (hdat t ht).2.2⟩))]

/-- C5 (amended): in the chunked path with at least one successful chunk,
the result's `text` is the *`strip()` of* the concatenation of each
successful chunk's text followed by a space, in chunk order; and — as a
sufficient condition — whenever every successful text is non-empty and
already stripped, this coincides with the plain space-joined concatenation
of exactly the successful texts.  (The condition is not necessary: edge
whitespace sometimes survives inside the join, so only this direction is
asserted.) -/
theorem claim_C5 (fs total_duration_ms : ℕ) (export_ok : ℕ × ℕ → Bool)
    (oracle : Dispatch → Option ChunkResult) (forzar_chunking : Bool)
    (hpath : forzar_chunking = true ∨ WHISPER_API_LIMIT_BYTES < fs)
    (hd : chunk_durationVal fs total_duration_ms ≠ 0)
    (hne : successTexts total_duration_ms (num_chunksVal fs)
      (chunk_durationVal fs total_duration_ms) export_ok oracle
      (List.range (num_chunksVal fs)) ≠ []) :
    ∃ c, (transcribir_wav_con_chunking_opcional fs total_duration_ms export_ok oracle
        forzar_chunking).1 = some c ∧
      c.text = pyStrip (concatStr
        ((successTexts total_duration_ms (num_chunksVal fs)
          (chunk_durationVal fs total_duration_ms) export_ok oracle
          (List.range (num_chunksVal fs))).map (fun t => t ++ " "))) ∧
      ((∀ t ∈ successTexts total_duration_ms (num_chunksVal fs)
          (chunk_durationVal fs total_duration_ms) export_ok oracle
          (List.range (num_chunksVal fs)), t ≠ "" ∧ pyStrip t = t) →
        c.text = spec_space_join (successTexts total_duration_ms (num_chunksVal fs)
          (chunk_durationVal fs total_duration_ms) export_ok oracle
          (List.range (num_chunksVal fs)))) := by
  rw [transcribir_chunked fs total_duration_ms export_ok oracle forzar_chunking hpath hd]
  have ht : textsOf total_duration_ms (num_chunksVal fs)
      (chunk_durationVal fs total_duration_ms) export_ok oracle
      (List.range (num_chunksVal fs)) ≠ "" := by
    intro he
    rcases List.exists_mem_of_ne_nil _ hne with ⟨t, htmem⟩
    have hmem : t ++ " " ∈ (successTexts total_duration_ms (num_chunksVal fs)
        (chunk_durationVal fs total_duration_ms) export_ok oracle
        (List.range (num_chunksVal fs))).map (fun t => t ++ " ") :=
      List.mem_map_of_mem _ htmem
    have : t ++ " " = "" := (concatStr_eq_empty_iff _).mp he _ hmem
    have hdata : t.data ++ (" " : String).data = [] := by
      rw [← string_data_append, this, string_data_empty]
    simp [string_data_space] at hdata
  rw [if_neg ht]
  refine ⟨_, rfl, rfl, ?_⟩
  intro htidy
  exact pyStrip_join_tidy _ hne htidy

/-- C5 witness: the amended statement applied to a forced two-successes
run whose texts are tidy, so both the strip formula and the plain
space-join agree. -/
theorem claim_C5_witness :
    successTexts 1000 (num_chunksVal 0) (chunk_durationVal 0 1000) (fun _ => true)
        (fun _ => some ⟨"hola", [], "es"⟩) (List.range (num_chunksVal 0)) ≠ [] ∧
    ∃ c, (transcribir_wav_con_chunking_opcional 0 1000 (fun _ => true)
        (fun _ => some ⟨"hola", [], "es"⟩) true).1 = some c ∧
      c.text = pyStrip (concatStr
        ((successTexts 1000 (num_chunksVal 0) (chunk_durationVal 0 1000)
          (fun _ => true) (fun _ => some ⟨"hola", [], "es"⟩)
          (List.range (num_chunksVal 0))).map (fun t => t ++ " "))) ∧
      ((∀ t ∈ successTexts 1000 (num_chunksVal 0) (chunk_durationVal 0 1000)
          (fun _ => true) (fun _ => some ⟨"hola", [], "es"⟩)
          (List.range (num_chunksVal 0)), t ≠ "" ∧ pyStrip t = t) →
        c.text = spec_space_join (successTexts 1000 (num_chunksVal 0)
          (chunk_durationVal 0 1000) (fun _ => true)
          (fun _ => some ⟨"hola", [], "es"⟩) (List.range (num_chunksVal 0)))) :=
  ⟨by decide,
    claim_C5 0 1000 (fun _ => true) (fun _ => some ⟨"hola", [], "es"⟩) true
      (Or.inl rfl) (by decide) (by decide)⟩

/-- The turn index an event refers to. -/
def turnEventIdx : TurnEvent → ℕ
  | TurnEvent.extract i => i
  | TurnEvent.transcribe i => i
  | TurnEvent.line i _ => i

theorem eventsOf_idx (extract_ok export_ok_turn : ℕ → Bool)
    (ttr : ℕ → Option ChunkResult) (p : ℕ × Turn) (e : TurnEvent)
    (he : e ∈ eventsOf extract_ok export_ok_turn ttr p) : turnEventIdx e = p.1 := by
  unfold eventsOf at he
  by_cases h1 : turn_duracion_ms p.2 < 100
  · rw [if_pos h1] at he
    exact absurd he (List.not_mem_nil e)
  · rw [if_neg h1] at he
    rcases List.mem_append.mp he with h | h
    · rw [List.mem_singleton.mp h]
      rfl
    · by_cases h2 : extract_ok p.1 = false
      · rw [if_pos h2] at h
        exact absurd h (List.not_mem_nil e)
      · rw [if_neg h2] at h
        by_cases h3 : export_ok_turn p.1 = false
        · rw [if_pos h3] at h
          exact absurd h (List.not_mem_nil e)
        · rw [if_neg h3] at h
          rcases List.mem_append.mp h with h | h
          · rw [List.mem_singleton.mp h]
            rfl
          · rcases hl : lineOf extract_ok export_ok_turn ttr p with _ | s
            · rw [hl] at h
              exact absurd h (List.not_mem_nil e)
            · rw [hl] at h
              rw [List.mem_singleton.mp h]
              rfl

theorem eventsOf_short (extract_ok export_ok_turn : ℕ → Bool)
    (ttr : ℕ → Option ChunkResult) (p : ℕ × Turn)
    (h : turn_duracion_ms p.2 < 100) :
    eventsOf extract_ok export_ok_turn ttr p = [] := by
  rw [eventsOf, if_pos h]

theorem lineOf_short (extract_ok export_ok_turn : ℕ → Bool)
    (ttr : ℕ → Option ChunkResult) (p : ℕ × Turn)
    (h : turn_duracion_ms p.2 < 100) :
    lineOf extract_ok export_ok_turn ttr p = none := by
  rw [lineOf, if_pos h]

/-- C6 (amended): the per-turn loop discards a turn before extraction
exactly when its *millisecond-truncated* duration
`int(end*1000) - int(start*1000)` is below 100: such a turn generates no
extraction, no transcription, and no line.  Because each endpoint is
truncated separately, this coincides with "true duration < 100 ms" only up
to one millisecond: any turn of true duration at most 99 ms is certainly
discarded, but a turn with true duration in the `[99, 100)` ms window can
still be processed (see the counterexample). -/
theorem claim_C6 (extract_ok export_ok_turn : ℕ → Bool)
    (ttr : ℕ → Option ChunkResult) :
    (∀ (turns : List Turn) (i : ℕ) (t : Turn), (i, t) ∈ turns.enum →
      turn_duracion_ms t < 100 →
      ∀ e ∈ (procesar_turnos extract_ok export_ok_turn ttr turns).2,
        e ≠ TurnEvent.extract i ∧ e ≠ TurnEvent.transcribe i ∧
        ∀ s, e ≠ TurnEvent.line i s) ∧
    (∀ p : ℕ × Turn, turn_duracion_ms p.2 < 100 →
      lineOf extract_ok export_ok_turn ttr p = none ∧
      eventsOf extract_ok export_ok_turn ttr p = []) ∧
    (∀ t : Turn, 0 ≤ t.start → t.start ≤ t.stop →
      (t.stop - t.start) * 1000 ≤ 99 → turn_duracion_ms t < 100) := by
  refine ⟨?_, ?_, ?_⟩
  · intro turns i t hmem hshort e he
    rw [procesar_turnos, turnFold] at he
    simp only [List.nil_append] at he
    rcases List.mem_flatMap.mp he with ⟨p, hp, hep⟩
    have hidx : turnEventIdx e = p.1 :=
      eventsOf_idx extract_ok export_ok_turn ttr p e hep
    have hne : p.1 ≠ i := by
      intro hpi
      have hget : turns[p.1]? = some p.2 := by
        have : (p.1, p.2) ∈ turns.enum := by
          rcases p with ⟨a, b⟩
          exact hp
        exact List.mk_mem_enum_iff_getElem?.mp this
      have hget2 : turns[i]? = some t := List.mk_mem_enum_iff_getElem?.mp hmem
      rw [hpi, hget2] at hget
      have hpt : p.2 = t := by
        injection hget with h
        exact h.symm
      rw [eventsOf_short extract_ok export_ok_turn ttr p (by rw [hpt]; exact hshort)] at hep
      exact absurd hep (List.not_mem_nil e)
    refine ⟨?_, ?_, ?_⟩
    · intro habs
      rw [habs] at hidx
      exact hne hidx.symm
    · intro habs
      rw [habs] at hidx
      exact hne hidx.symm
    · intro s habs
      rw [habs] at hidx
      exact hne hidx.symm
  · intro p h
    exact ⟨lineOf_short extract_ok export_ok_turn ttr p h,
      eventsOf_short extract_ok export_ok_turn ttr p h⟩
  · intro t h0 h01 h99
    have hstart : (0 : ℚ) ≤ t.start * 1000 := by positivity
    have hstop : (0 : ℚ) ≤ t.stop * 1000 := by nlinarith
    rw [turn_duracion_ms, pyInt, pyInt, if_pos hstop, if_pos hstart]
    have hb : t.stop * 1000 ≤ t.start * 1000 + 99 := by nlinarith
    have hf : ⌊t.stop * 1000⌋ ≤ ⌊t.start * 1000 + (99 : ℤ)⌋ := by
      apply Int.floor_le_floor
      push_cast
      linarith
    rw [Int.floor_add_int] at hf
    omega

/-- C6 counterexample: a turn with exactly representable float endpoints
`start = 1025/8192 = 0.1251220703125 s` and
`stop = 1844/8192 = 0.22509765625 s`.  Its true duration is
`0.0999755859375 s < 100 ms`, yet
`int(stop*1000) - int(start*1000) = 225 - 125 = 100`, so the loop does
*not* discard it: the extractor and transcriber run and the turn
contributes a line. -/
theorem claim_C6_counterexample :
    procesar_turnos (fun _ => true) (fun _ => true)
        (fun _ => some ⟨"hola", [], "es"⟩)
        [⟨"SPEAKER_00", 1025/8192, 1844/8192⟩] =
      ("SPEAKER_00: hola\n",
       [TurnEvent.extract 0, TurnEvent.transcribe 0,
        TurnEvent.line 0 "SPEAKER_00: hola\n"]) ∧
    ((1844/8192 : ℚ) - 1025/8192) * 1000 < 100 := by
  constructor
  · have hdur : ¬ turn_duracion_ms (⟨"SPEAKER_00", 1025/8192, 1844/8192⟩ : Turn) < 100 := by
      norm_num [turn_duracion_ms, pyInt]
    have hline : lineOf (fun _ => true) (fun _ => true)
        (fun _ => some ⟨"hola", [], "es"⟩)
        (0, ⟨"SPEAKER_00", 1025/8192, 1844/8192⟩) = some "SPEAKER_00: hola\n" := by
      rw [lineOf, if_neg hdur, if_neg (by simp), if_neg (by simp)]
      rfl
    have hev : eventsOf (fun _ => true) (fun _ => true)
        (fun _ => some ⟨"hola", [], "es"⟩)
        (0, ⟨"SPEAKER_00", 1025/8192, 1844/8192⟩) =
        [TurnEvent.extract 0, TurnEvent.transcribe 0,
         TurnEvent.line 0 "SPEAKER_00: hola\n"] := by
      rw [eventsOf, if_neg hdur, if_neg (by simp), if_neg (by simp), hline]
      rfl
    rw [procesar_turnos]
    have henum : ([(⟨"SPEAKER_00", 1025/8192, 1844/8192⟩ : Turn)]).enum =
        [(0, ⟨"SPEAKER_00", 1025/8192, 1844/8192⟩)] := rfl
    rw [henum, List.foldl_cons, List.foldl_nil, turnStep_eq, hline, hev]
    rfl
  · norm_num

/-- C6 witness: the amended statement applied to a 50 ms turn, which is
discarded with no line and no events. -/
theorem claim_C6_witness :
    turn_duracion_ms (⟨"A", 0, 1/20⟩ : Turn) < 100 ∧
    lineOf (fun _ => true) (fun _ => true) (fun _ => some ⟨"hola", [], "es"⟩)
      (0, ⟨"A", 0, 1/20⟩) = none ∧
    eventsOf (fun _ => true) (fun _ => true) (fun _ => some ⟨"hola", [], "es"⟩)
      (0, ⟨"A", 0, 1/20⟩) = [] := by
  have hshort : turn_duracion_ms (⟨"A", 0, 1/20⟩ : Turn) < 100 := by
    norm_num [turn_duracion_ms, pyInt]
  have h := (claim_C6 (fun _ => true) (fun _ => true)
    (fun _ => some ⟨"hola", [], "es"⟩)).2.1 (0, ⟨"A", 0, 1/20⟩) hshort
  exact ⟨hshort, h.1, h.2⟩

/-- C7: when diarization produced turns but no processed turn contributed a
line (every turn was discarded as too short, failed extraction or export,
failed transcription, or returned empty text), the file's final text stays
empty and no output file is written — in particular the fallback
placeholder is never emitted on the diarized path. -/
theorem claim_C7 (file_size total_duration_ms : ℕ)
    (full_export_ok : ℕ × ℕ → Bool) (full_oracle : Dispatch → Option ChunkResult)
    (extract_ok export_ok_turn : ℕ → Bool) (ttr : ℕ → Option ChunkResult)
    (nombre_base : String) (turns : List Turn) (_hne : turns ≠ [])
    (hall : ∀ p ∈ turns.enum, lineOf extract_ok export_ok_turn ttr p = none) :
    (procesar_archivo (some turns) file_size total_duration_ms full_export_ok
      full_oracle extract_ok export_ok_turn ttr).1 = "" ∧
    salida_archivo (some turns) file_size total_duration_ms full_export_ok
      full_oracle extract_ok export_ok_turn ttr nombre_base = none := by
  have htext : (procesar_archivo (some turns) file_size total_duration_ms full_export_ok
      full_oracle extract_ok export_ok_turn ttr).1 = "" := by
    show (procesar_turnos extract_ok export_ok_turn ttr turns).1 = ""
    rw [procesar_turnos, turnFold]
    rw [List.filterMap_eq_nil_iff.mpr hall]
    rw [string_empty_append]
    rfl
  refine ⟨htext, ?_⟩
  rw [salida_archivo]
  simp only [htext]
  rfl

/-- C7 witness: one sufficiently long turn whose transcription fails. -/
theorem claim_C7_witness :
    ([(⟨"A", 0, 10⟩ : Turn)] ≠ []) ∧
    (∀ p ∈ ([(⟨"A", 0, 10⟩ : Turn)]).enum,
      lineOf (fun _ => true) (fun _ => true) (fun _ => none) p = none) ∧
    (procesar_archivo (some [⟨"A", 0, 10⟩]) 0 0 (fun _ => true) (fun _ => none)
      (fun _ => true) (fun _ => true) (fun _ => none)).1 = "" ∧
    salida_archivo (some [⟨"A", 0, 10⟩]) 0 0 (fun _ => true) (fun _ => none)
      (fun _ => true) (fun _ => true) (fun _ => none) "a" = none := by
  have hall : ∀ p ∈ ([(⟨"A", 0, 10⟩ : Turn)]).enum,
      lineOf (fun _ => true) (fun _ => true) (fun _ => none) p = none := by
    intro p hp
    rw [List.mem_singleton.mp hp]
    rw [lineOf]
    split <;> simp
  have h := claim_C7 0 0 (fun _ => true) (fun _ => none) (fun _ => true)
    (fun _ => true) (fun _ => none) "a" [⟨"A", 0, 10⟩] (by simp) hall
  exact ⟨by simp, hall, h.1, h.2⟩

/-- C8 counterexample: diarization unavailable and the forced whole-file
transcription *succeeds* but with empty text.  The claim says that on
success the transcript is the one line `"SPEAKER_?: <text>"`; the code
instead treats empty text like a failure and emits the fixed placeholder
line (`if resultado_completo and resultado_completo.get("text")`). -/
theorem claim_C8_counterexample :
    (transcribir_wav_con_chunking_opcional 44 1000 (fun _ => true)
        (fun _ => some ⟨"", [], "es"⟩) true).1 = some ⟨"", [], "es"⟩ ∧
    (procesar_archivo none 44 1000 (fun _ => true) (fun _ => some ⟨"", [], "es"⟩)
        (fun _ => true) (fun _ => true) (fun _ => none)).1 = placeholder_line ∧
    placeholder_line ≠ "SPEAKER_?: " ++ ("" : String) ++ "\n" := by
  refine ⟨rfl, rfl, by decide⟩

/-- C8 (amended): on the no-diarization path the aggregator transcribes the
whole file with chunking forced, and each outcome forces its transcript:
a success *with non-empty text* forces the single labeled line
`"SPEAKER_?: <text>\n"`, while a failure — or a success with empty text —
forces the single fixed placeholder line.  In every case the transcript is
non-empty, so an output file is always written for the file. -/
theorem claim_C8 (file_size total_duration_ms : ℕ)
    (full_export_ok : ℕ × ℕ → Bool) (full_oracle : Dispatch → Option ChunkResult)
    (extract_ok export_ok_turn : ℕ → Bool) (ttr : ℕ → Option ChunkResult)
    (nombre_base : String) :
    (∀ r, (transcribir_wav_con_chunking_opcional file_size total_duration_ms
        full_export_ok full_oracle true).1 = some r → r.text ≠ "" →
      (procesar_archivo none file_size total_duration_ms full_export_ok full_oracle
        extract_ok export_ok_turn ttr).1 = "SPEAKER_?: " ++ r.text ++ "\n") ∧
    (∀ r, (transcribir_wav_con_chunking_opcional file_size total_duration_ms
        full_export_ok full_oracle true).1 = some r → r.text = "" →
      (procesar_archivo none file_size total_duration_ms full_export_ok full_oracle
        extract_ok export_ok_turn ttr).1 = placeholder_line) ∧
    ((transcribir_wav_con_chunking_opcional file_size total_duration_ms
        full_export_ok full_oracle true).1 = none →
      (procesar_archivo none file_size total_duration_ms full_export_ok full_oracle
        extract_ok export_ok_turn ttr).1 = placeholder_line) ∧
    (procesar_archivo none file_size total_duration_ms full_export_ok full_oracle
      extract_ok export_ok_turn ttr).1 ≠ "" ∧
    salida_archivo none file_size total_duration_ms full_export_ok full_oracle
        extract_ok export_ok_turn ttr nombre_base =
      some (guardar_transcripcion
        (procesar_archivo none file_size total_duration_ms full_export_ok full_oracle
          extract_ok export_ok_turn ttr).1 nombre_base) := by
  have hplace : placeholder_line ≠ "" := by decide
  refine ⟨?_, ?_, ?_, ?_⟩
  · intro r hres hrt
    simp [procesar_archivo, hres, hrt]
  · intro r hres hrt
    simp [procesar_archivo, hres, hrt]
  · intro hres
    simp [procesar_archivo, hres]
  rcases hres : (transcribir_wav_con_chunking_opcional file_size total_duration_ms
      full_export_ok full_oracle true).1 with _ | r
  · have htext : (procesar_archivo none file_size total_duration_ms full_export_ok
        full_oracle extract_ok export_ok_turn ttr).1 = placeholder_line := by
      simp [procesar_archivo, hres]
    refine ⟨by rw [htext]; exact hplace, ?_⟩
    rw [salida_archivo]
    simp only [htext]
    rw [if_neg hplace]
  · by_cases hrt : r.text = ""
    · have htext : (procesar_archivo none file_size total_duration_ms full_export_ok
          full_oracle extract_ok export_ok_turn ttr).1 = placeholder_line := by
        simp [procesar_archivo, hres, hrt]
      refine ⟨by rw [htext]; exact hplace, ?_⟩
      rw [salida_archivo]
      simp only [htext]
      rw [if_neg hplace]
    · have htext : (procesar_archivo none file_size total_duration_ms full_export_ok
          full_oracle extract_ok export_ok_turn ttr).1 =
          "SPEAKER_?: " ++ r.text ++ "\n" := by
        simp [procesar_archivo, hres, hrt]
      have hne : ("SPEAKER_?: " ++ r.text ++ "\n" : String) ≠ "" := by
        apply string_ne_empty_of_data_ne_nil
        rw [string_data_append, string_data_append]
        simp
      refine ⟨by rw [htext]; exact hne, ?_⟩
      rw [salida_archivo]
      simp only [htext]
      rw [if_neg hne]

/-- C8 witness: the amended statement applied to a whole-file transcription
that succeeds with the non-empty text `"hola"` — the success branch forces
the labeled `"SPEAKER_?: hola"` line, which is non-empty and written. -/
theorem claim_C8_witness :
    (transcribir_wav_con_chunking_opcional 44 1000 (fun _ => true)
        (fun _ => some ⟨"hola", [], "es"⟩) true).1 = some ⟨"hola", [], "es"⟩ ∧
    (procesar_archivo none 44 1000 (fun _ => true)
        (fun _ => some ⟨"hola", [], "es"⟩) (fun _ => true) (fun _ => true)
        (fun _ => none)).1 = "SPEAKER_?: " ++ "hola" ++ "\n" ∧
    (procesar_archivo none 44 1000 (fun _ => true)
        (fun _ => some ⟨"hola", [], "es"⟩) (fun _ => true) (fun _ => true)
        (fun _ => none)).1 ≠ "" ∧
    salida_archivo none 44 1000 (fun _ => true)
        (fun _ => some ⟨"hola", [], "es"⟩) (fun _ => true) (fun _ => true)
        (fun _ => none) "x" =
      some (guardar_transcripcion
        (procesar_archivo none 44 1000 (fun _ => true)
          (fun _ => some ⟨"hola", [], "es"⟩) (fun _ => true) (fun _ => true)
          (fun _ => none)).1 "x") := by
  have h := claim_C8 44 1000 (fun _ => true) (fun _ => some ⟨"hola", [], "es"⟩)
    (fun _ => true) (fun _ => true) (fun _ => none) "x"
  exact ⟨rfl, h.1 ⟨"hola", [], "es"⟩ rfl (by decide), h.2.2.2.1, h.2.2.2.2⟩

/-- C9 counterexample: an input file named `"a.b.wav"` has stem `"a.b"`,
but `with_suffix(".diarized.txt")` *replaces* the stem's own trailing
`".b"`, so the pipeline writes `"a.diarized.txt"`, not the claimed
`"a.b.diarized.txt"`. -/
theorem claim_C9_counterexample :
    pyStem "a.b.wav" = "a.b" ∧
    pyWithSuffix (pyStem "a.b.wav") ".diarized.txt" = "a.diarized.txt" ∧
    salida_archivo (some [⟨"A", 0, 10⟩]) 0 0 (fun _ => true) (fun _ => none)
        (fun _ => true) (fun _ => true) (fun _ => some ⟨"hola", [], "es"⟩)
        (pyStem "a.b.wav") =
      some ("a.diarized.txt", [65, 58, 32, 104, 111, 108, 97, 10]) ∧
    ("a.diarized.txt" : String) ≠ "a.b" ++ ".diarized.txt" := by
  have hdur : ¬ turn_duracion_ms (⟨"A", 0, 10⟩ : Turn) < 100 := by
    norm_num [turn_duracion_ms, pyInt]
  have hline : lineOf (fun _ => true) (fun _ => true)
      (fun _ => some ⟨"hola", [], "es"⟩) (0, ⟨"A", 0, 10⟩) = some "A: hola\n" := by
    rw [lineOf, if_neg hdur, if_neg (by simp), if_neg (by simp)]
    rfl
  have htext : (procesar_archivo (some [⟨"A", 0, 10⟩]) 0 0 (fun _ => true)
      (fun _ => none) (fun _ => true) (fun _ => true)
      (fun _ => some ⟨"hola", [], "es"⟩)).1 = "A: hola\n" := by
    show (procesar_turnos (fun _ => true) (fun _ => true)
      (fun _ => some ⟨"hola", [], "es"⟩) [⟨"A", 0, 10⟩]).1 = "A: hola\n"
    rw [procesar_turnos]
    rw [show ([(⟨"A", 0, 10⟩ : Turn)]).enum = [(0, ⟨"A", 0, 10⟩)] from rfl]
    rw [turnFold]
    rw [List.filterMap_cons, hline, List.filterMap_nil]
    rfl
  refine ⟨by decide, by decide, ?_, by decide⟩
  rw [salida_archivo]
  simp only [htext]
  rw [if_neg (by decide)]
  rfl

/-- C9 (amended): whenever a file's pipeline run produces a non-empty
transcript, exactly one output record is written; its byte content is the
latin-1 lossy encoding of the transcript (every character above code point
255 is dropped, every byte is ≤ 255), and its name is
`with_suffix(stem, ".diarized.txt")` — which equals
`<stem> + ".diarized.txt"` exactly when the stem itself carries no dot
suffix, and otherwise *replaces* the stem's trailing `.xxx` part. -/
theorem claim_C9 (diarization : Option (List Turn))
    (file_size total_duration_ms : ℕ)
    (full_export_ok : ℕ × ℕ → Bool) (full_oracle : Dispatch → Option ChunkResult)
    (extract_ok export_ok_turn : ℕ → Bool) (ttr : ℕ → Option ChunkResult)
    (nombre_base : String)
    (h : (procesar_archivo diarization file_size total_duration_ms full_export_ok
      full_oracle extract_ok export_ok_turn ttr).1 ≠ "") :
    salida_archivo diarization file_size total_duration_ms full_export_ok
        full_oracle extract_ok export_ok_turn ttr nombre_base =
      some (pyWithSuffix nombre_base ".diarized.txt",
        latin1_ignore (procesar_archivo diarization file_size total_duration_ms
          full_export_ok full_oracle extract_ok export_ok_turn ttr).1) ∧
    (∀ b ∈ latin1_ignore (procesar_archivo diarization file_size total_duration_ms
        full_export_ok full_oracle extract_ok export_ok_turn ttr).1, b ≤ 255) ∧
    (pySuffix nombre_base = "" →
      pyWithSuffix nombre_base ".diarized.txt" = nombre_base ++ ".diarized.txt") := by
  refine ⟨?_, ?_, ?_⟩
  · simp only [salida_archivo]
    rw [if_neg h]
    rfl
  · intro b hb
    rcases List.mem_filterMap.mp hb with ⟨c, _, hc⟩
    by_cases hle : c.toNat ≤ 255
    · rw [if_pos hle] at hc
      injection hc with hcb
      omega
    · rw [if_neg hle] at hc
      cases hc
  · intro hsuf
    have hdrop : nombre_base.data.drop (pySplitIdx nombre_base.data) = [] := by
      have := congrArg String.data hsuf
      simpa [pySuffix] using this
    have hlen : nombre_base.data.length ≤ pySplitIdx nombre_base.data :=
      List.drop_eq_nil_iff.mp hdrop
    rw [pyWithSuffix, List.take_of_length_le hlen]
    rw [string_eq_iff_data, string_data_append]

/-- C9 witness: the amended statement applied to a fallback run with a
dot-free stem; the transcript line is written to `x.diarized.txt`. -/
theorem claim_C9_witness :
    ((procesar_archivo none 44 1000 (fun _ => true)
      (fun _ => some ⟨"hola", [], "es"⟩) (fun _ => true) (fun _ => true)
      (fun _ => none)).1 ≠ "") ∧
    salida_archivo none 44 1000 (fun _ => true)
        (fun _ => some ⟨"hola", [], "es"⟩) (fun _ => true) (fun _ => true)
        (fun _ => none) "x" =
      some (pyWithSuffix "x" ".diarized.txt",
        latin1_ignore (procesar_archivo none 44 1000 (fun _ => true)
          (fun _ => some ⟨"hola", [], "es"⟩) (fun _ => true) (fun _ => true)
          (fun _ => none)).1) ∧
    (pySuffix "x" = "" →
      pyWithSuffix "x" ".diarized.txt" = "x" ++ ".diarized.txt") := by
  have h : (procesar_archivo none 44 1000 (fun _ => true)
      (fun _ => some ⟨"hola", [], "es"⟩) (fun _ => true) (fun _ => true)
      (fun _ => none)).1 ≠ "" := by decide
  have hc := claim_C9 none 44 1000 (fun _ => true)
    (fun _ => some ⟨"hola", [], "es"⟩) (fun _ => true) (fun _ => true)
    (fun _ => none) "x" h
  exact ⟨h, hc.1, hc.2.2⟩

/-- C10: on the diarized path the final text is exactly the concatenation
of the per-turn lines; a turn contributes a line iff it is long enough,
extraction and export succeed, and the transcription result exists with
non-empty text (a success with empty text is dropped exactly like a
failure); and every contributed line has the form
`"{speaker}: {text}\n"` with non-empty text and a trailing newline. -/
theorem claim_C10 (extract_ok export_ok_turn : ℕ → Bool)
    (ttr : ℕ → Option ChunkResult) (turns : List Turn) :
    (procesar_turnos extract_ok export_ok_turn ttr turns).1 =
      concatStr (turns.enum.filterMap (lineOf extract_ok export_ok_turn ttr)) ∧
    (∀ p ∈ turns.enum, (lineOf extract_ok export_ok_turn ttr p).isSome ↔
      (¬ turn_duracion_ms p.2 < 100 ∧ extract_ok p.1 = true ∧
        export_ok_turn p.1 = true ∧ ∃ r, ttr p.1 = some r ∧ r.text ≠ "")) ∧
    (∀ l ∈ turns.enum.filterMap (lineOf extract_ok export_ok_turn ttr),
      ∃ sp tx, tx ≠ "" ∧ l = sp ++ ": " ++ (tx ++ "\n")) := by
  refine ⟨?_, ?_, ?_⟩
  · rw [procesar_turnos, turnFold, string_empty_append]
  · intro p _
    by_cases h1 : turn_duracion_ms p.2 < 100
    · simp [lineOf, h1]
    · by_cases h2 : extract_ok p.1 = false
      · simp [lineOf, h1, h2]
      · by_cases h3 : export_ok_turn p.1 = false
        · simp [lineOf, h1, h2, h3]
        · rcases h4 : ttr p.1 with _ | r
          · simp [lineOf, h1, h2, h3, h4]
          · by_cases h5 : r.text = ""
            · simp [lineOf, h1, h2, h3, h4, h5]
            · simp [lineOf, h1, h2, h3, h4, h5]
  · intro l hl
    rcases List.mem_filterMap.mp hl with ⟨p, _, hp⟩
    rw [lineOf] at hp
    by_cases h1 : turn_duracion_ms p.2 < 100
    · rw [if_pos h1] at hp
      cases hp
    · rw [if_neg h1] at hp
      by_cases h2 : extract_ok p.1 = false
      · rw [if_pos h2] at hp
        cases hp
      · rw [if_neg h2] at hp
        by_cases h3 : export_ok_turn p.1 = false
        · rw [if_pos h3] at hp
          cases hp
        · rw [if_neg h3] at hp
          rcases h4 : ttr p.1 with _ | r
          · rw [h4] at hp
            exact absurd hp (by simp)
          · rw [h4] at hp
            have hp' : (if r.text = "" then none
                else some (p.2.speaker ++ ": " ++ r.text ++ "\n")) = some l := hp
            by_cases h5 : r.text = ""
            · rw [if_pos h5] at hp'
              cases hp'
            · rw [if_neg h5] at hp'
              injection hp' with hpl
              refine ⟨p.2.speaker, r.text, h5, ?_⟩
              rw [← hpl, string_append_assoc]

/-- C10 safety witness: the statement applied to one successfully
transcribed turn. -/
theorem claim_C10_witness :
    (procesar_turnos (fun _ => true) (fun _ => true)
        (fun _ => some ⟨"hola", [], "es"⟩) [⟨"A", 0, 10⟩]).1 =
      concatStr (([(⟨"A", 0, 10⟩ : Turn)]).enum.filterMap
        (lineOf (fun _ => true) (fun _ => true)
          (fun _ => some ⟨"hola", [], "es"⟩))) ∧
    (∀ l ∈ ([(⟨"A", 0, 10⟩ : Turn)]).enum.filterMap
        (lineOf (fun _ => true) (fun _ => true)
          (fun _ => some ⟨"hola", [], "es"⟩)),
      ∃ sp tx, tx ≠ "" ∧ l = sp ++ ": " ++ (tx ++ "\n")) := by
  have h := claim_C10 (fun _ => true) (fun _ => true)
    (fun _ => some ⟨"hola", [], "es"⟩) [⟨"A", 0, 10⟩]
  exact ⟨h.1, h.2.2⟩
